import Mathlib

/-!
Verification development for the tesseract black-bar cut detection core.

The Python source is embedded shallowly:
  * `models.BarState` / `models.CutEvent` become structures (the derived
    `timestamp` float is omitted; no claim concerns it);
  * `detector.BlackBarDetector` methods become pure functions over a
    `Frame` whose pixels are rationals (`np.mean` is modelled as the exact
    arithmetic mean);
  * the `analyze_video` loop becomes a fold carrying the optional previous
    state;
  * the segment planning inside `utils.split_video_by_cuts` and the crop
    computation of `utils._calculate_crop_filter` become list functions.
-/

/-- Embeds `models.BarState`: measured bar sizes for one frame, in pixels.
Fields are non-negative integers per the data model. -/
structure BarState where
  left_width : Nat
  right_width : Nat
  top_height : Nat
  bottom_height : Nat
deriving DecidableEq, Repr

/-- Embeds `models.CutEvent` (without the derived `timestamp` field, which is
`frame_number / fps` and is not the subject of any claim). -/
structure CutEvent where
  frame_number : Nat
  before_state : BarState
  after_state : BarState
deriving DecidableEq, Repr

/-- Embeds `BlackBarDetector.states_significantly_different`: some field's
absolute difference strictly exceeds `tolerance_pixels`. -/
def states_significantly_different (tol : Int) (s1 s2 : BarState) : Bool :=
  decide (tol < |(s1.left_width : Int) - (s2.left_width : Int)|) ||
  decide (tol < |(s1.right_width : Int) - (s2.right_width : Int)|) ||
  decide (tol < |(s1.top_height : Int) - (s2.top_height : Int)|) ||
  decide (tol < |(s1.bottom_height : Int) - (s2.bottom_height : Int)|)

/-- Embeds the frame loop of `analyzer.analyze_video`: fold over the visited
frames (frame number paired with its measured state) carrying the optional
previous state, emitting a `CutEvent` on a significant difference and always
promoting the current state to previous. -/
def analyzeSteps (tol : Int) : Option BarState → List (Nat × BarState) → List CutEvent
  | _, [] => []
  | none, f :: rest => analyzeSteps tol (some f.2) rest
  | some prev, f :: rest =>
    if states_significantly_different tol prev f.2 then
      ⟨f.1, prev, f.2⟩ :: analyzeSteps tol (some f.2) rest
    else
      analyzeSteps tol (some f.2) rest

/-- Cut detection of `analyzer.analyze_video` as a function of the visited
frames' bar states (previous state starts empty). -/
def analyze_video_states (tol : Int) (frames : List (Nat × BarState)) : List CutEvent :=
  analyzeSteps tol none frames

/-- Significance as the spec words it: the absolute difference of at least
one of the four corresponding fields strictly exceeds the tolerance. -/
def sigDiffSpec (tol : Int) (a b : BarState) : Prop :=
  tol < |(a.left_width : Int) - (b.left_width : Int)| ∨
  tol < |(a.right_width : Int) - (b.right_width : Int)| ∨
  tol < |(a.top_height : Int) - (b.top_height : Int)| ∨
  tol < |(a.bottom_height : Int) - (b.bottom_height : Int)|

instance (tol : Int) (a b : BarState) : Decidable (sigDiffSpec tol a b) := by
  unfold sigDiffSpec
  infer_instance

/-- Cuts as the spec describes them: for each consecutive pair of visited
frames whose states are significantly different, one `CutEvent` carrying the
later frame's number, the earlier state as `before_state` and the later state
as `after_state`. -/
def cutsSpec (tol : Int) (frames : List (Nat × BarState)) : List CutEvent :=
  (frames.zip frames.tail).filterMap fun p =>
    if sigDiffSpec tol p.1.2 p.2.2 then some ⟨p.2.1, p.1.2, p.2.2⟩ else none

lemma sig_eq_spec (tol : Int) (a b : BarState) :
    states_significantly_different tol a b = true ↔ sigDiffSpec tol a b := by
  simp [states_significantly_different, sigDiffSpec]
  tauto

lemma cutsSpec_nil (tol : Int) : cutsSpec tol [] = [] := rfl

lemma cutsSpec_cons (tol : Int) (x y : Nat × BarState) (ys : List (Nat × BarState)) :
    cutsSpec tol (x :: y :: ys) =
      (if sigDiffSpec tol x.2 y.2 then [(⟨y.1, x.2, y.2⟩ : CutEvent)] else []) ++
        cutsSpec tol (y :: ys) := by
  by_cases h : sigDiffSpec tol x.2 y.2 <;>
    simp [cutsSpec, h]

lemma analyzeSteps_some_eq (tol : Int) :
    ∀ (xs : List (Nat × BarState)) (n : Nat) (s : BarState),
      analyzeSteps tol (some s) xs = cutsSpec tol ((n, s) :: xs)
  | [], n, s => by simp [analyzeSteps, cutsSpec]
  | y :: ys, n, s => by
    have ih := analyzeSteps_some_eq tol ys y.1 y.2
    rw [cutsSpec_cons tol (n, s) y ys]
    by_cases h : sigDiffSpec tol s y.2
    · have hb : states_significantly_different tol s y.2 = true := (sig_eq_spec tol s y.2).mpr h
      simp [analyzeSteps, hb, h, ih]
    · have hb : states_significantly_different tol s y.2 = false := by
        rcases Bool.eq_false_or_eq_true (states_significantly_different tol s y.2) with h1 | h0
        · exact absurd ((sig_eq_spec tol s y.2).mp h1) h
        · exact h0
      simp [analyzeSteps, hb, h, ih]

lemma analyze_video_states_eq_cutsSpec (tol : Int) (frames : List (Nat × BarState)) :
    analyze_video_states tol frames = cutsSpec tol frames := by
  cases frames with
  | nil => rfl
  | cons x xs =>
    show analyzeSteps tol none (x :: xs) = cutsSpec tol (x :: xs)
    have := analyzeSteps_some_eq tol xs x.1 x.2
    simpa [analyzeSteps] using this

lemma cutsSpec_map_frame_sublist (tol : Int) :
    ∀ frames : List (Nat × BarState),
      ((cutsSpec tol frames).map CutEvent.frame_number).Sublist (frames.tail.map Prod.fst)
  | [] => by simp [cutsSpec]
  | [x] => by simp [cutsSpec]
  | x :: y :: ys => by
    have ih := cutsSpec_map_frame_sublist tol (y :: ys)
    rw [cutsSpec_cons tol x y ys]
    by_cases h : sigDiffSpec tol x.2 y.2
    · simpa [h] using ih.cons₂ y.1
    · simpa [h] using ih.trans (List.sublist_cons_self y.1 (ys.map Prod.fst))

/-- C2: over an ordered run of visited frames, a `CutEvent` is emitted exactly
when a previous state exists and the absolute difference of at least one of
the four corresponding fields strictly exceeds the tolerance (the list of
emitted cuts equals the spec-side reconstruction over consecutive pairs); the
first visited frame never yields a cut, and the emitted frame numbers are
strictly increasing. -/
theorem analyze_video_cut_characterization (tol : Int) (frames : List (Nat × BarState))
    (hinc : List.Pairwise (· < ·) (frames.map Prod.fst)) :
    analyze_video_states tol frames = cutsSpec tol frames ∧
    List.Pairwise (· < ·) ((analyze_video_states tol frames).map CutEvent.frame_number) ∧
    ∀ p ∈ frames.head?, ∀ c ∈ analyze_video_states tol frames, p.1 ≠ c.frame_number := by
  refine ⟨analyze_video_states_eq_cutsSpec tol frames, ?_, ?_⟩
  · rw [analyze_video_states_eq_cutsSpec]
    have hsub := cutsSpec_map_frame_sublist tol frames
    have htail : List.Pairwise (· < ·) (frames.tail.map Prod.fst) := by
      rw [List.map_tail]
      exact hinc.tail
    exact List.Pairwise.sublist hsub htail
  · intro p hp c hc
    cases frames with
    | nil => simp at hp
    | cons x xs =>
      simp only [List.head?_cons, Option.mem_def, Option.some.injEq] at hp
      rw [← hp]
      rw [analyze_video_states_eq_cutsSpec] at hc
      have hmem : c.frame_number ∈ (x :: xs).tail.map Prod.fst :=
        (cutsSpec_map_frame_sublist tol (x :: xs)).subset
          (List.mem_map_of_mem CutEvent.frame_number hc)
      simp only [List.tail_cons] at hmem
      have hlt : x.1 < c.frame_number := by
        simp only [List.map_cons, List.pairwise_cons] at hinc
        exact hinc.1 c.frame_number hmem
      exact Nat.ne_of_lt hlt

/-- Witness for C2 at a concrete two-frame run with one significant change. -/
theorem analyze_video_cut_characterization_witness :
    analyze_video_states 5 [(0, ⟨0, 0, 0, 0⟩), (3, ⟨20, 0, 0, 0⟩)] =
        cutsSpec 5 [(0, ⟨0, 0, 0, 0⟩), (3, ⟨20, 0, 0, 0⟩)] ∧
      List.Pairwise (· < ·)
        ((analyze_video_states 5 [(0, ⟨0, 0, 0, 0⟩), (3, ⟨20, 0, 0, 0⟩)]).map
          CutEvent.frame_number) ∧
      ∀ p ∈ ([(0, ⟨0, 0, 0, 0⟩), (3, ⟨20, 0, 0, 0⟩)] : List (Nat × BarState)).head?,
        ∀ c ∈ analyze_video_states 5 [(0, ⟨0, 0, 0, 0⟩), (3, ⟨20, 0, 0, 0⟩)],
          p.1 ≠ c.frame_number :=
  analyze_video_cut_characterization 5 [(0, ⟨0, 0, 0, 0⟩), (3, ⟨20, 0, 0, 0⟩)] (by decide)

/-- C7: the significance test is symmetric in its two states. -/
theorem states_significantly_different_symm (tol : Int) (s1 s2 : BarState) :
    states_significantly_different tol s1 s2 = states_significantly_different tol s2 s1 := by
  simp [states_significantly_different, abs_sub_comm]

lemma analyzeSteps_const (tol : Int) (s : BarState)
    (hs : states_significantly_different tol s s = false) :
    ∀ frames : List (Nat × BarState), (∀ p ∈ frames, p.2 = s) →
      analyzeSteps tol (some s) frames = []
  | [], _ => rfl
  | f :: rest, hall => by
    have hf : f.2 = s := hall f (List.mem_cons_self f rest)
    have hrest : ∀ p ∈ rest, p.2 = s := fun p hp => hall p (List.mem_cons_of_mem f hp)
    simp only [analyzeSteps, hf, hs, Bool.false_eq_true, if_false]
    exact analyzeSteps_const tol s hs rest hrest

/-- C10: with a non-negative tolerance a state is never significantly
different from itself, and a run whose measured states are all equal emits no
cuts; with a negative tolerance a state is significantly different from
itself. -/
theorem states_significantly_different_self (tol : Int) (s : BarState)
    (frames : List (Nat × BarState)) (hall : ∀ p ∈ frames, p.2 = s) :
    (0 ≤ tol →
      states_significantly_different tol s s = false ∧
        analyze_video_states tol frames = []) ∧
    (tol < 0 → states_significantly_different tol s s = true) := by
  constructor
  · intro htol
    have hs : states_significantly_different tol s s = false := by
      simp [states_significantly_different, not_lt.mpr htol]
    refine ⟨hs, ?_⟩
    cases frames with
    | nil => rfl
    | cons f rest =>
      have hf : f.2 = s := hall f (List.mem_cons_self f rest)
      have hrest : ∀ p ∈ rest, p.2 = s := fun p hp => hall p (List.mem_cons_of_mem f hp)
      show analyzeSteps tol none (f :: rest) = []
      simp only [analyzeSteps, hf]
      exact analyzeSteps_const tol s hs rest hrest
  · intro htol
    simpa [states_significantly_different] using htol

/-- Witness for C10 at tolerance 0 and a constant two-frame run. -/
theorem states_significantly_different_self_witness :
    (0:Int) ≤ 0 ∧
      (states_significantly_different 0 ⟨1, 2, 3, 4⟩ ⟨1, 2, 3, 4⟩ = false ∧
        analyze_video_states 0 [(0, ⟨1, 2, 3, 4⟩), (5, ⟨1, 2, 3, 4⟩)] = []) :=
  ⟨le_refl 0,
    (states_significantly_different_self 0 ⟨1, 2, 3, 4⟩
        [(0, ⟨1, 2, 3, 4⟩), (5, ⟨1, 2, 3, 4⟩)] (by decide)).1 (le_refl 0)⟩

/-- Embeds the segment tuples built inside `utils.split_video_by_cuts`: a
frame range `[start_frame, end_frame)`, the 1-based ordinal rendered in the
output file name `segment_NN`, and the reference bar state used for
cropping (`None` means "do not crop"). -/
structure Segment where
  start_frame : Nat
  end_frame : Nat
  ordinal : Nat
  bar_state : Option BarState
deriving DecidableEq, Repr

/-- Embeds the `for i in range(len(cuts) - 1)` loop of
`utils.split_video_by_cuts`: one segment per adjacent pair of cuts, ordinal
`i + 2`, reference state the earlier cut's `after_state`. -/
def middleSegs : Nat → List CutEvent → List Segment
  | k, c :: c2 :: cs =>
    ⟨c.frame_number, c2.frame_number, k, some c.after_state⟩ :: middleSegs (k + 1) (c2 :: cs)
  | _, _ => []

/-- Embeds the segment planning of `utils.split_video_by_cuts` (lines
196-226): no cuts gives a single whole-range segment with no reference state;
otherwise an initial segment up to the first cut with its `before_state`, one
segment per adjacent pair of cuts, and a trailing segment up to
`total_frames` only when the last cut falls strictly before it. -/
def planSegments (cuts : List CutEvent) (total_frames : Nat) : List Segment :=
  match cuts with
  | [] => [⟨0, total_frames, 1, none⟩]
  | c0 :: rest =>
    let cl := rest.getLastD c0
    (⟨0, c0.frame_number, 1, some c0.before_state⟩ :: middleSegs 2 (c0 :: rest)) ++
      (if cl.frame_number < total_frames then
        [⟨cl.frame_number, total_frames, (c0 :: rest).length + 1, some cl.after_state⟩]
      else
        [])

/-- Chain check threading segment boundaries: starting from `s`, every
segment's `start_frame` equals the carried boundary and the final carried
boundary equals `total`. -/
def isChain (total : Nat) : Nat → List Segment → Bool
  | s, [] => s == total
  | s, seg :: rest => (seg.start_frame == s) && isChain total seg.end_frame rest

/-- The partition property C1 asserts: the first segment starts at 0, each
subsequent segment starts where the previous one ends, the last segment ends
at `total`, and every segment is non-reversed — together a gap-free,
overlap-free cover of `[0, total)`. -/
def segsOk (segs : List Segment) (total : Nat) : Bool :=
  isChain total 0 segs && segs.all fun g => decide (g.start_frame ≤ g.end_frame)

lemma getLastD_mem : ∀ (cs : List CutEvent) (c : CutEvent), cs.getLastD c ∈ c :: cs
  | [], c => List.mem_cons_self c []
  | c2 :: cs, c => by
    rw [List.getLastD_cons]
    exact List.mem_cons_of_mem c (getLastD_mem cs c2)

lemma isChain_middleSegs (total : Nat) :
    ∀ (cs : List CutEvent) (c : CutEvent) (T : List Segment) (k : Nat),
      isChain total c.frame_number (middleSegs k (c :: cs) ++ T) =
        isChain total (cs.getLastD c).frame_number T
  | [], c, T, k => by simp [middleSegs]
  | c2 :: cs, c, T, k => by
    rw [List.getLastD_cons]
    have ih := isChain_middleSegs total cs c2 T (k + 1)
    simp [middleSegs, isChain, ih]

lemma middleSegs_mono :
    ∀ (cs : List CutEvent) (c : CutEvent) (k : Nat),
      List.Chain' (· ≤ ·) ((c :: cs).map CutEvent.frame_number) →
      ∀ g ∈ middleSegs k (c :: cs), g.start_frame ≤ g.end_frame
  | [], c, k, _, g, hg => by simp [middleSegs] at hg
  | c2 :: cs, c, k, hchain, g, hg => by
    simp only [List.map_cons, List.chain'_cons] at hchain
    simp only [middleSegs, List.mem_cons] at hg
    rcases hg with rfl | hg
    · exact hchain.1
    · exact middleSegs_mono cs c2 (k + 1) (by simp [List.chain'_cons] ; exact hchain.2) g hg

/-- Amended C1: for cut lists with nondecreasing frame numbers, each at most
`total_frames`, the planned segments are nonempty and form a gap-free,
overlap-free partition of `[0, total_frames)`: the first starts at 0, each
start matches the previous end, and the last ends at `total_frames`. -/
theorem planSegments_partition (cuts : List CutEvent) (total : Nat)
    (hsorted : List.Chain' (· ≤ ·) (cuts.map CutEvent.frame_number))
    (hle : ∀ c ∈ cuts, c.frame_number ≤ total) :
    planSegments cuts total ≠ [] ∧ segsOk (planSegments cuts total) total = true := by
  cases cuts with
  | nil =>
    constructor
    · simp [planSegments]
    · simp [planSegments, segsOk, isChain]
  | cons c0 rest =>
    have hcl : (rest.getLastD c0).frame_number ≤ total :=
      hle (rest.getLastD c0) (getLastD_mem rest c0)
    have hplan : planSegments (c0 :: rest) total =
        ⟨0, c0.frame_number, 1, some c0.before_state⟩ ::
          (middleSegs 2 (c0 :: rest) ++
            (if (rest.getLastD c0).frame_number < total then
              [⟨(rest.getLastD c0).frame_number, total, (c0 :: rest).length + 1,
                some (rest.getLastD c0).after_state⟩]
            else [])) := rfl
    constructor
    · rw [hplan]
      exact List.cons_ne_nil _ _
    · rw [hplan]
      simp only [segsOk, Bool.and_eq_true]
      constructor
      · have hstep : isChain total 0
            (⟨0, c0.frame_number, 1, some c0.before_state⟩ ::
              (middleSegs 2 (c0 :: rest) ++
                (if (rest.getLastD c0).frame_number < total then
                  [⟨(rest.getLastD c0).frame_number, total, (c0 :: rest).length + 1,
                    some (rest.getLastD c0).after_state⟩]
                else []))) =
            isChain total c0.frame_number
              (middleSegs 2 (c0 :: rest) ++
                (if (rest.getLastD c0).frame_number < total then
                  [⟨(rest.getLastD c0).frame_number, total, (c0 :: rest).length + 1,
                    some (rest.getLastD c0).after_state⟩]
                else [])) := rfl
        rw [hstep, isChain_middleSegs]
        by_cases h : (rest.getLastD c0).frame_number < total
        · rw [if_pos h]
          simp [isChain]
        · have heq : (rest.getLastD c0).frame_number = total :=
            Nat.le_antisymm hcl (Nat.not_lt.mp h)
          rw [if_neg h]
          simp only [isChain]
          simpa using heq
      · rw [List.all_eq_true]
        intro g hg
        simp only [List.mem_cons, List.mem_append] at hg
        rcases hg with rfl | hg | hg
        · simp
        · exact decide_eq_true (middleSegs_mono rest c0 2 hsorted g hg)
        · by_cases h : (rest.getLastD c0).frame_number < total
          · rw [if_pos h, List.mem_singleton] at hg
            subst hg
            exact decide_eq_true (Nat.le_of_lt h)
          · rw [if_neg h] at hg
            simp at hg

/-- Counterexample to C1 as stated: for the arbitrary cut list whose single
cut sits at frame 15 while the video has only 10 frames, the planned
segments do not partition `[0, 10)` (the only segment is `[0, 15)`). -/
theorem planSegments_partition_cex :
    segsOk (planSegments [⟨15, ⟨0, 0, 0, 0⟩, ⟨20, 0, 0, 0⟩⟩] 10) 10 = false := by decide

/-- Witness for the amended C1 at one in-range cut. -/
theorem planSegments_partition_witness :
    planSegments [⟨100, ⟨10, 10, 0, 0⟩, ⟨0, 0, 0, 0⟩⟩] 300 ≠ [] ∧
      segsOk (planSegments [⟨100, ⟨10, 10, 0, 0⟩, ⟨0, 0, 0, 0⟩⟩] 300) 300 = true :=
  planSegments_partition [⟨100, ⟨10, 10, 0, 0⟩, ⟨0, 0, 0, 0⟩⟩] 300 (by simp) (by decide)

/-- Ordinal assignment as the spec words it: name ordinals are assigned
sequentially in emission order, starting at `k`. -/
def assignOrdinals : Nat → List (Nat × Nat × Option BarState) → List Segment
  | _, [] => []
  | k, r :: rs => ⟨r.1, r.2.1, k, r.2.2⟩ :: assignOrdinals (k + 1) rs

/-- Segment ranges as the spec words them: with no cuts, the whole range with
absent reference state; otherwise `[0, cuts[0])` with the first cut's
`before_state`, one range per adjacent pair of cuts with the earlier cut's
`after_state`, and a trailing range up to `total` with the last cut's
`after_state` exactly when the last cut is strictly before `total`. -/
def specRanges (cuts : List CutEvent) (total : Nat) : List (Nat × Nat × Option BarState) :=
  match cuts with
  | [] => [(0, total, none)]
  | c0 :: _ =>
    (0, c0.frame_number, some c0.before_state) ::
      ((cuts.zip cuts.tail).map fun p =>
        (p.1.frame_number, p.2.frame_number, some p.1.after_state)) ++
      (match cuts.getLast? with
       | none => []
       | some cl =>
         if cl.frame_number < total then [(cl.frame_number, total, some cl.after_state)] else [])

/-- Spec-side segment planner: the spec's ranges with ordinals assigned
sequentially from 1. -/
def specSegments (cuts : List CutEvent) (total : Nat) : List Segment :=
  assignOrdinals 1 (specRanges cuts total)

lemma assignOrdinals_append :
    ∀ (l1 l2 : List (Nat × Nat × Option BarState)) (k : Nat),
      assignOrdinals k (l1 ++ l2) =
        assignOrdinals k l1 ++ assignOrdinals (k + l1.length) l2
  | [], l2, k => by simp [assignOrdinals]
  | r :: rs, l2, k => by
    have ih := assignOrdinals_append rs l2 (k + 1)
    have harith : k + 1 + rs.length = k + (r :: rs).length := by
      simp only [List.length_cons]
      omega
    show (⟨r.1, r.2.1, k, r.2.2⟩ : Segment) :: assignOrdinals (k + 1) (rs ++ l2) =
      (⟨r.1, r.2.1, k, r.2.2⟩ : Segment) ::
        (assignOrdinals (k + 1) rs ++ assignOrdinals (k + (r :: rs).length) l2)
    rw [ih, harith]

lemma assignOrdinals_middles :
    ∀ (cs : List CutEvent) (c : CutEvent) (k : Nat),
      assignOrdinals k
          (((c :: cs).zip cs).map fun p =>
            (p.1.frame_number, p.2.frame_number, some p.1.after_state)) =
        middleSegs k (c :: cs)
  | [], c, k => by simp [assignOrdinals, middleSegs]
  | c2 :: cs, c, k => by
    have ih := assignOrdinals_middles cs c2 (k + 1)
    show (⟨c.frame_number, c2.frame_number, k, some c.after_state⟩ : Segment) ::
        assignOrdinals (k + 1)
          (((c2 :: cs).zip cs).map fun p =>
            (p.1.frame_number, p.2.frame_number, some p.1.after_state)) =
      (⟨c.frame_number, c2.frame_number, k, some c.after_state⟩ : Segment) ::
        middleSegs (k + 1) (c2 :: cs)
    rw [ih]

lemma zip_tail_length (c : CutEvent) (cs : List CutEvent) :
    (((c :: cs).zip cs).map fun p =>
      ((p.1.frame_number, p.2.frame_number, some p.1.after_state) :
        Nat × Nat × Option BarState)).length = cs.length := by
  rw [List.length_map, List.length_zip]
  simp [Nat.min_def]

/-- C3: the planner inside `split_video_by_cuts` agrees with the spec's
description everywhere: with no cuts a single whole-range ordinal-1 segment
with absent state; otherwise an initial `[0, cuts[0])` segment with
`before_state`, adjacent-pair segments with the earlier cut's `after_state`,
and a trailing segment exactly when the last cut is strictly before
`total_frames`, ordinals sequential from 1. -/
theorem planSegments_eq_specSegments (cuts : List CutEvent) (total : Nat) :
    planSegments cuts total = specSegments cuts total := by
  cases cuts with
  | nil => rfl
  | cons c0 rest =>
    have hlast : (c0 :: rest).getLast? = some (rest.getLastD c0) := by
      rw [List.getLast?_cons, List.getLastD_eq_getLast?]
    have hplan : planSegments (c0 :: rest) total =
        ⟨0, c0.frame_number, 1, some c0.before_state⟩ ::
          (middleSegs 2 (c0 :: rest) ++
            (if (rest.getLastD c0).frame_number < total then
              [⟨(rest.getLastD c0).frame_number, total, (c0 :: rest).length + 1,
                some (rest.getLastD c0).after_state⟩]
            else [])) := rfl
    rw [hplan]
    simp only [specSegments, specRanges, hlast]
    rw [List.cons_append]
    simp only [assignOrdinals, List.tail_cons]
    rw [assignOrdinals_append, assignOrdinals_middles rest c0 (1 + 1), zip_tail_length]
    congr 1
    congr 1
    by_cases h : (rest.getLastD c0).frame_number < total
    · rw [if_pos h, if_pos h]
      simp [assignOrdinals]
      omega
    · rw [if_neg h, if_neg h]
      rfl

/-- A decoded grayscale frame: `px r c` is the intensity of the pixel at row
`r`, column `c`. Intensities are rationals so that `np.mean` is the exact
arithmetic mean. -/
structure Frame where
  height : Nat
  width : Nat
  px : Nat → Nat → Rat

/-- Mean intensity of one column, `np.mean(gray[:, col])`. -/
def colMean (f : Frame) (col : Nat) : Rat :=
  (∑ r in Finset.range f.height, f.px r col) / (f.height : Rat)

/-- Mean intensity of one row, `np.mean(gray[row, :])`. -/
def rowMean (f : Frame) (row : Nat) : Rat :=
  (∑ c in Finset.range f.width, f.px row c) / (f.width : Rat)

/-- Column means in left-to-right scan order. -/
def colMeans (f : Frame) : List Rat := (List.range f.width).map (colMean f)

/-- Row means in top-to-bottom scan order. -/
def rowMeans (f : Frame) : List Rat := (List.range f.height).map (rowMean f)

/-- Embeds the scan loops of `BlackBarDetector`: walk the given means in
scan order, counting lines while the mean stays at or below the threshold,
and stop at the first mean strictly above it (the `break`). The accumulator
is the running bar size (`col + 1` resp. `width - col` in the source). -/
def barScanLoop (thr : Rat) : List Rat → Nat → Nat
  | [], acc => acc
  | m :: ms, acc => if thr < m then acc else barScanLoop thr ms (acc + 1)

/-- Embeds `BlackBarDetector.detect_vertical_bars`: scan columns from the
left and (reversed) from the right, then zero out any width under
`min_bar_size`. -/
def detect_vertical_bars (thr : Rat) (min_bar_size : Nat) (f : Frame) : Nat × Nat :=
  let left_width := barScanLoop thr (colMeans f) 0
  let right_width := barScanLoop thr (colMeans f).reverse 0
  (if min_bar_size ≤ left_width then left_width else 0,
   if min_bar_size ≤ right_width then right_width else 0)

/-- Embeds `BlackBarDetector.detect_horizontal_bars`: the same two scans over
row means. -/
def detect_horizontal_bars (thr : Rat) (min_bar_size : Nat) (f : Frame) : Nat × Nat :=
  let top_height := barScanLoop thr (rowMeans f) 0
  let bottom_height := barScanLoop thr (rowMeans f).reverse 0
  (if min_bar_size ≤ top_height then top_height else 0,
   if min_bar_size ≤ bottom_height then bottom_height else 0)

/-- Embeds `BlackBarDetector.get_frame_bar_state`. -/
def get_frame_bar_state (thr : Rat) (min_bar_size : Nat) (f : Frame) : BarState :=
  let v := detect_vertical_bars thr min_bar_size f
  let h := detect_horizontal_bars thr min_bar_size f
  ⟨v.1, v.2, h.1, h.2⟩

lemma barScanLoop_eq (thr : Rat) :
    ∀ (ms : List Rat) (acc : Nat),
      barScanLoop thr ms acc = acc + (ms.takeWhile fun m => decide (m ≤ thr)).length
  | [], acc => by simp [barScanLoop]
  | m :: ms, acc => by
    by_cases h : thr < m
    · have hm : decide (m ≤ thr) = false := by simp [not_le.mpr h]
      simp [barScanLoop, h, List.takeWhile_cons, hm]
    · have hm : decide (m ≤ thr) = true := by simp [not_lt.mp h]
      have ih := barScanLoop_eq thr ms (acc + 1)
      simp only [barScanLoop, if_neg h, List.takeWhile_cons, hm, if_true, List.length_cons]
      rw [ih]
      omega

lemma length_takeWhile_of_mark {α : Type} (p : α → Bool) :
    ∀ (l : List α) (k : Nat),
      (∀ j, j < k → ∀ hj : j < l.length, p (l.get ⟨j, hj⟩) = true) →
      ∀ hk : k < l.length, p (l.get ⟨k, hk⟩) = false →
      (l.takeWhile p).length = k
  | [], k, _, hk, _ => by simp at hk
  | a :: t, 0, _, hk, hpk => by
    have ha : p a = false := hpk
    simp [List.takeWhile_cons, ha]
  | a :: t, k + 1, hall, hk, hpk => by
    have ha : p a = true := hall 0 (Nat.succ_pos k) (Nat.succ_pos t.length)
    have htail : ∀ j, j < k → ∀ hj : j < t.length, p (t.get ⟨j, hj⟩) = true := by
      intro j hj hjl
      exact hall (j + 1) (Nat.succ_lt_succ hj) (Nat.succ_lt_succ hjl)
    have hk2 : k < t.length := Nat.lt_of_succ_lt_succ hk
    have hpk2 : p (t.get ⟨k, hk2⟩) = false := hpk
    have ih := length_takeWhile_of_mark p t k htail hk2 hpk2
    simp [List.takeWhile_cons, ha, ih]

lemma length_takeWhile_all {α : Type} (p : α → Bool) :
    ∀ l : List α, (∀ a ∈ l, p a = true) → (l.takeWhile p).length = l.length
  | [], _ => rfl
  | a :: t, hall => by
    have ha : p a = true := hall a (List.mem_cons_self a t)
    have ih := length_takeWhile_all p t fun b hb => hall b (List.mem_cons_of_mem a hb)
    simp [List.takeWhile_cons, ha, ih]

lemma colMeans_get (f : Frame) (j : Nat) (hj : j < (colMeans f).length) :
    (colMeans f).get ⟨j, hj⟩ = colMean f j := by
  simp [colMeans]

lemma colMeans_length (f : Frame) : (colMeans f).length = f.width := by
  simp [colMeans]

lemma rowMeans_length (f : Frame) : (rowMeans f).length = f.height := by
  simp [rowMeans]

/-- C5: the measured left bar width is the length of the longest run of
columns from column 0 rightward whose mean is at most the threshold,
post-filtered to 0 when that length is strictly below `min_bar_size`; in
particular a black run of `k < min_bar_size` columns followed by a non-black
column measures as 0. -/
theorem detect_left_bar_spec (thr : Rat) (min_bar_size : Nat) (f : Frame) :
    ((detect_vertical_bars thr min_bar_size f).1 =
      if ((colMeans f).takeWhile fun m => decide (m ≤ thr)).length < min_bar_size then 0
      else ((colMeans f).takeWhile fun m => decide (m ≤ thr)).length) ∧
    (∀ k, k < min_bar_size → k < f.width → (∀ j, j < k → colMean f j ≤ thr) →
      thr < colMean f k → (detect_vertical_bars thr min_bar_size f).1 = 0) := by
  have hloop : (detect_vertical_bars thr min_bar_size f).1 =
      if min_bar_size ≤ ((colMeans f).takeWhile fun m => decide (m ≤ thr)).length then
        ((colMeans f).takeWhile fun m => decide (m ≤ thr)).length
      else 0 := by
    simp only [detect_vertical_bars, barScanLoop_eq, Nat.zero_add]
  constructor
  · rw [hloop]
    by_cases h : min_bar_size ≤ ((colMeans f).takeWhile fun m => decide (m ≤ thr)).length
    · rw [if_pos h, if_neg (Nat.not_lt.mpr h)]
    · rw [if_neg h, if_pos (Nat.lt_of_not_le h)]
  · intro k hk hkw hblack hnonblack
    have hklen : k < (colMeans f).length := by
      rw [colMeans_length]
      exact hkw
    have hlen : ((colMeans f).takeWhile fun m => decide (m ≤ thr)).length = k := by
      refine length_takeWhile_of_mark _ (colMeans f) k ?_ hklen ?_
      · intro j hj hjl
        rw [colMeans_get]
        simp [hblack j hj]
      · rw [colMeans_get]
        simp [not_le.mpr hnonblack]
    rw [hloop, hlen]
    rw [if_neg (Nat.not_le.mpr hk)]

/-- Witness for C5: a 2-row, 3-column frame whose single leftmost black
column is narrower than `min_bar_size`, so the measured left width is 0. -/
theorem detect_left_bar_spec_witness :
    (1:Nat) < 10 ∧
      (detect_vertical_bars 10 10 ⟨2, 3, fun _ c => if c = 0 then 0 else 255⟩).1 = 0 :=
  ⟨by norm_num,
    (detect_left_bar_spec 10 10 ⟨2, 3, fun _ c => if c = 0 then 0 else 255⟩).2 1
      (by norm_num) (by norm_num)
      (by
        intro j hj
        have hj0 : j = 0 := by omega
        subst hj0
        norm_num [colMean, Finset.sum_range_succ])
      (by norm_num [colMean, Finset.sum_range_succ])⟩

lemma barScan_all (thr : Rat) (ms : List Rat) (hall : ∀ m ∈ ms, m ≤ thr) :
    barScanLoop thr ms 0 = ms.length := by
  rw [barScanLoop_eq, length_takeWhile_all]
  · omega
  · intro a ha
    simp [hall a ha]

/-- Counterexample to C6 as stated: a fully black 1-by-1 frame (default
`black_threshold` 10 and `min_bar_size` 10) has every column and row mean at
or below the threshold, yet the measured state is not the full dimensions:
the raw runs of length 1 are filtered to 0 by the minimum-size rule. -/
theorem fully_black_frame_cex :
    (∀ c, c < (⟨1, 1, fun _ _ => 0⟩ : Frame).width →
      colMean ⟨1, 1, fun _ _ => 0⟩ c ≤ 10) ∧
    (∀ r, r < (⟨1, 1, fun _ _ => 0⟩ : Frame).height →
      rowMean ⟨1, 1, fun _ _ => 0⟩ r ≤ 10) ∧
    get_frame_bar_state 10 10 ⟨1, 1, fun _ _ => 0⟩ ≠
      ⟨(⟨1, 1, fun _ _ => 0⟩ : Frame).width, (⟨1, 1, fun _ _ => 0⟩ : Frame).width,
        (⟨1, 1, fun _ _ => 0⟩ : Frame).height, (⟨1, 1, fun _ _ => 0⟩ : Frame).height⟩ := by
  have hcm : ∀ c, colMean ⟨1, 1, fun _ _ => 0⟩ c = 0 := by
    intro c
    simp [colMean]
  have hrm : ∀ r, rowMean ⟨1, 1, fun _ _ => 0⟩ r = 0 := by
    intro r
    simp [rowMean]
  refine ⟨?_, ?_, ?_⟩
  · intro c _
    rw [hcm]
    norm_num
  · intro r _
    rw [hrm]
    norm_num
  · have h1 : colMeans ⟨1, 1, fun _ _ => 0⟩ = [0] := by
      simp [colMeans, List.range_succ, hcm]
    have h2 : rowMeans ⟨1, 1, fun _ _ => 0⟩ = [0] := by
      simp [rowMeans, List.range_succ, hrm]
    have hbar : get_frame_bar_state 10 10 ⟨1, 1, fun _ _ => 0⟩ = ⟨0, 0, 0, 0⟩ := by
      norm_num [get_frame_bar_state, detect_vertical_bars, detect_horizontal_bars, h1, h2,
        barScanLoop, hcm, hrm]
    rw [hbar]
    simp

/-- Amended C6: on a fully black frame whose width and height are each at
least `min_bar_size`, all four measured bar sizes equal the full
corresponding dimension, with no overlap correction applied. -/
theorem fully_black_frame_spec (thr : Rat) (min_bar_size : Nat) (f : Frame)
    (hw : min_bar_size ≤ f.width) (hh : min_bar_size ≤ f.height)
    (hc : ∀ c, c < f.width → colMean f c ≤ thr)
    (hr : ∀ r, r < f.height → rowMean f r ≤ thr) :
    get_frame_bar_state thr min_bar_size f = ⟨f.width, f.width, f.height, f.height⟩ := by
  have hcm : ∀ m ∈ colMeans f, m ≤ thr := by
    intro m hm
    simp only [colMeans, List.mem_map, List.mem_range] at hm
    obtain ⟨c, hcw, rfl⟩ := hm
    exact hc c hcw
  have hrm : ∀ m ∈ rowMeans f, m ≤ thr := by
    intro m hm
    simp only [rowMeans, List.mem_map, List.mem_range] at hm
    obtain ⟨r, hrh, rfl⟩ := hm
    exact hr r hrh
  have h1 : barScanLoop thr (colMeans f) 0 = f.width := by
    rw [barScan_all thr _ hcm, colMeans_length]
  have h2 : barScanLoop thr (colMeans f).reverse 0 = f.width := by
    rw [barScan_all thr _ fun m hm => hcm m (List.mem_reverse.mp hm),
      List.length_reverse, colMeans_length]
  have h3 : barScanLoop thr (rowMeans f) 0 = f.height := by
    rw [barScan_all thr _ hrm, rowMeans_length]
  have h4 : barScanLoop thr (rowMeans f).reverse 0 = f.height := by
    rw [barScan_all thr _ fun m hm => hrm m (List.mem_reverse.mp hm),
      List.length_reverse, rowMeans_length]
  simp [get_frame_bar_state, detect_vertical_bars, detect_horizontal_bars, h1, h2, h3, h4, hw, hh]

/-- Witness for the amended C6 on a 2-by-2 fully black frame with
`min_bar_size` 2. -/
theorem fully_black_frame_spec_witness :
    (2:Nat) ≤ (⟨2, 2, fun _ _ => 0⟩ : Frame).width ∧
      get_frame_bar_state 10 2 ⟨2, 2, fun _ _ => 0⟩ = ⟨2, 2, 2, 2⟩ :=
  ⟨by norm_num,
    fully_black_frame_spec 10 2 ⟨2, 2, fun _ _ => 0⟩ (by norm_num) (by norm_num)
      (by
        intro c _
        norm_num [colMean])
      (by
        intro r _
        norm_num [rowMean])⟩

lemma barScan_le_length (thr : Rat) (ms : List Rat) : barScanLoop thr ms 0 ≤ ms.length := by
  rw [barScanLoop_eq]
  simpa using (List.takeWhile_sublist fun m => decide (m ≤ thr)).length_le

lemma filtered_range (min_bar_size L D : Nat) (hLD : L ≤ D) :
    (if min_bar_size ≤ L then L else 0) = 0 ∨
      (min_bar_size ≤ (if min_bar_size ≤ L then L else 0) ∧
        (if min_bar_size ≤ L then L else 0) ≤ D) := by
  by_cases h : min_bar_size ≤ L
  · exact Or.inr ⟨by simp [h], by simpa [h] using hLD⟩
  · exact Or.inl (by simp [h])

/-- C9: every field of a measured `BarState` is either 0 or lies in
`[min_bar_size, D]` where `D` is the corresponding frame dimension; in
particular no field is strictly between 0 and `min_bar_size`. -/
theorem bar_state_field_ranges (thr : Rat) (min_bar_size : Nat) (f : Frame) :
    ((get_frame_bar_state thr min_bar_size f).left_width = 0 ∨
      (min_bar_size ≤ (get_frame_bar_state thr min_bar_size f).left_width ∧
        (get_frame_bar_state thr min_bar_size f).left_width ≤ f.width)) ∧
    ((get_frame_bar_state thr min_bar_size f).right_width = 0 ∨
      (min_bar_size ≤ (get_frame_bar_state thr min_bar_size f).right_width ∧
        (get_frame_bar_state thr min_bar_size f).right_width ≤ f.width)) ∧
    ((get_frame_bar_state thr min_bar_size f).top_height = 0 ∨
      (min_bar_size ≤ (get_frame_bar_state thr min_bar_size f).top_height ∧
        (get_frame_bar_state thr min_bar_size f).top_height ≤ f.height)) ∧
    ((get_frame_bar_state thr min_bar_size f).bottom_height = 0 ∨
      (min_bar_size ≤ (get_frame_bar_state thr min_bar_size f).bottom_height ∧
        (get_frame_bar_state thr min_bar_size f).bottom_height ≤ f.height)) := by
  have hL := barScan_le_length thr (colMeans f)
  rw [colMeans_length] at hL
  have hR := barScan_le_length thr (colMeans f).reverse
  rw [List.length_reverse, colMeans_length] at hR
  have hT := barScan_le_length thr (rowMeans f)
  rw [rowMeans_length] at hT
  have hB := barScan_le_length thr (rowMeans f).reverse
  rw [List.length_reverse, rowMeans_length] at hB
  exact ⟨filtered_range min_bar_size _ _ hL, filtered_range min_bar_size _ _ hR,
    filtered_range min_bar_size _ _ hT, filtered_range min_bar_size _ _ hB⟩

/-- A crop rectangle as rendered into the ffmpeg filter
`crop=width:height:x:y`. -/
structure CropRect where
  x : Int
  y : Int
  width : Int
  height : Int
deriving DecidableEq, Repr

/-- Embeds `utils._calculate_crop_filter`: `none` models the empty filter
string (no crop), `some r` the filter `crop=r.width:r.height:r.x:r.y`. -/
def calculate_crop_filter (bar_state : BarState) (width height : Nat) : Option CropRect :=
  let crop_width : Int := (width : Int) - (bar_state.left_width : Int) - (bar_state.right_width : Int)
  let crop_height : Int :=
    (height : Int) - (bar_state.top_height : Int) - (bar_state.bottom_height : Int)
  if (0 < bar_state.left_width ∨ 0 < bar_state.right_width ∨
        0 < bar_state.top_height ∨ 0 < bar_state.bottom_height) ∧
      0 < crop_width ∧ 0 < crop_height ∧ 64 ≤ crop_width ∧ 64 ≤ crop_height then
    some ⟨(bar_state.left_width : Int), (bar_state.top_height : Int), crop_width, crop_height⟩
  else
    none

/-- Embeds the crop decision of `utils._split_with_ffmpeg_frame_accurate`
(lines 308-312): only an existing bar state with positive frame dimensions
reaches `_calculate_crop_filter`; an empty filter string means no `-vf`
argument. -/
def crop_for_segment (bar_state : Option BarState) (width height : Nat) : Option CropRect :=
  match bar_state with
  | none => none
  | some s => if 0 < width ∧ 0 < height then calculate_crop_filter s width height else none

/-- Crop rule as the spec words it: no crop for an absent state or an
all-zero state; otherwise compute the cropped dimensions, refuse non-positive
or sub-64 results, and return `(x=left, y=top, crop_width, crop_height)`. -/
def cropSpec (bar_state : Option BarState) (width height : Nat) : Option CropRect :=
  match bar_state with
  | none => none
  | some s =>
    if s.left_width = 0 ∧ s.right_width = 0 ∧ s.top_height = 0 ∧ s.bottom_height = 0 then
      none
    else
      let cw : Int := (width : Int) - (s.left_width : Int) - (s.right_width : Int)
      let ch : Int := (height : Int) - (s.top_height : Int) - (s.bottom_height : Int)
      if cw ≤ 0 ∨ ch ≤ 0 then none
      else if cw < 64 ∨ ch < 64 then none
      else some ⟨(s.left_width : Int), (s.top_height : Int), cw, ch⟩

/-- C4: the crop computation returns "no crop" exactly in the spec's cases
(absent state, all-zero state, non-positive or sub-64 crop dimensions) and
otherwise the rectangle `(x=left, y=top, crop_width, crop_height)`; every
returned rectangle has width and height at least 64. -/
theorem crop_filter_spec (bar_state : Option BarState) (width height : Nat) :
    crop_for_segment bar_state width height = cropSpec bar_state width height ∧
    ∀ r, crop_for_segment bar_state width height = some r → 64 ≤ r.width ∧ 64 ≤ r.height := by
  cases bar_state with
  | none =>
    refine ⟨rfl, ?_⟩
    intro r hr
    simp [crop_for_segment] at hr
  | some s =>
    constructor
    · simp only [crop_for_segment, cropSpec, calculate_crop_filter]
      split_ifs <;> first
        | rfl
        | (exfalso; omega)
    · intro r hr
      simp only [crop_for_segment, calculate_crop_filter] at hr
      split_ifs at hr with hd hc
      · injection hr with hx
        subst hx
        exact ⟨hc.2.2.2.1, hc.2.2.2.2⟩

/-- Witness for C4: a pillarboxed 200x100 frame with 10-pixel side bars crops
to a 180x100 rectangle at x=10, y=0, both dimensions at least 64. -/
theorem crop_filter_spec_witness :
    crop_for_segment (some ⟨10, 10, 0, 0⟩) 200 100 = some ⟨10, 0, 180, 100⟩ ∧
      (64:Int) ≤ (⟨10, 0, 180, 100⟩ : CropRect).width ∧
        (64:Int) ≤ (⟨10, 0, 180, 100⟩ : CropRect).height :=
  ⟨by decide,
    (crop_filter_spec (some ⟨10, 10, 0, 0⟩) 200 100).2 ⟨10, 0, 180, 100⟩ (by decide)⟩

/-- The result of opening the frame source: the decoded frames, in order
(frame numbers are positions). `analyze_video` receives `none` when
`cv2.VideoCapture` fails to open the file. -/
structure VideoSource where
  frames : List Frame

/-- Embeds `analyzer.analyze_video`: an unopenable source raises
`ValueError(f"Could not open video file: \x7bvideo_path\x7d")` before any
frame is read, modelled as an `Except.error`; otherwise every
`sample_rate`-th frame is measured and folded through the cut detector. -/
def analyze_video (source : Option VideoSource) (video_path : String) (thr : Rat)
    (min_bar_size : Nat) (tol : Int) (sample_rate : Nat) : Except String (List CutEvent) :=
  match source with
  | none => Except.error ("Could not open video file: " ++ video_path)
  | some v =>
    let states := v.frames.map (get_frame_bar_state thr min_bar_size)
    let visited := states.enum.filter fun p => p.1 % sample_rate == 0
    Except.ok (analyzeSteps tol none visited)

/-- C8: when the frame source cannot be opened, `analyze_video` fails with
the distinct source-unavailable error carrying the file path, and no cut
list is returned: the error outcome and a cut list are mutually exclusive. -/
theorem analyze_video_source_unavailable (source : Option VideoSource) (video_path : String)
    (thr : Rat) (min_bar_size : Nat) (tol : Int) (sample_rate : Nat)
    (h : source = none) :
    analyze_video source video_path thr min_bar_size tol sample_rate =
        Except.error ("Could not open video file: " ++ video_path) ∧
      ∀ cuts, analyze_video source video_path thr min_bar_size tol sample_rate ≠
        Except.ok cuts := by
  subst h
  refine ⟨rfl, ?_⟩
  intro cuts hcon
  simp [analyze_video] at hcon

/-- Witness for C8 at a concrete missing file. -/
theorem analyze_video_source_unavailable_witness :
    analyze_video none "missing.mp4" 10 10 5 1 =
        Except.error ("Could not open video file: " ++ "missing.mp4") ∧
      ∀ cuts, analyze_video none "missing.mp4" 10 10 5 1 ≠ Except.ok cuts :=
  analyze_video_source_unavailable none "missing.mp4" 10 10 5 1 rfl
